import Mathlib

/-!
Verification of the QYNTARA-AI repository against its specification.

The repository ships a React/Next.js frontend (under `frontend/app`) and
documentation for a Maya-side Validation & Auto-Fix Engine.  The engine's own
implementation is not part of the source tree, so the engine (claims about
validation, fixing, convergence and reporting) is modelled from the
specification text; the frontend components (login gate, pipeline progress,
floor-plan calibration) are translated directly from the TypeScript sources.

Machine reals (JavaScript numbers) are modelled as `ℚ` where the source only
moves values around, and as `ℝ` where the source calls `Math.sqrt`.
-/

/-! ## Generic ordered insertion sort

A small self-contained insertion sort over a boolean comparator, used by the
Report Aggregator model to produce the stable violation ordering.  The
comparator is required to be total and transitive for sortedness.
-/

def insertOrd {α : Type} (le : α → α → Bool) (x : α) : List α → List α
  | [] => [x]
  | y :: ys => if le x y then x :: y :: ys else y :: insertOrd le x ys

def sortOrd {α : Type} (le : α → α → Bool) (l : List α) : List α :=
  l.foldr (insertOrd le) []

theorem mem_insertOrd {α : Type} (le : α → α → Bool) (x : α) (l : List α) (z : α) :
    z ∈ insertOrd le x l ↔ z = x ∨ z ∈ l := by
  induction l with
  | nil => simp [insertOrd]
  | cons y ys ih =>
    by_cases h : le x y
    · simp [insertOrd, h]
    · simp only [insertOrd, h, if_neg, Bool.false_eq_true, not_false_eq_true, ite_false,
        List.mem_cons, ih]
      tauto

theorem pairwise_insertOrd {α : Type} (le : α → α → Bool)
    (trans : ∀ a b c, le a b = true → le b c = true → le a c = true)
    (total : ∀ a b, (le a b || le b a) = true)
    (x : α) (l : List α) (h : l.Pairwise (fun a b => le a b = true)) :
    (insertOrd le x l).Pairwise (fun a b => le a b = true) := by
  induction l with
  | nil => simp [insertOrd]
  | cons y ys ih =>
    rcases List.pairwise_cons.mp h with ⟨hy, hys⟩
    by_cases hxy : le x y = true
    · simp only [insertOrd, hxy, ite_true]
      refine List.pairwise_cons.mpr ⟨?_, h⟩
      intro z hz
      rcases List.mem_cons.mp hz with rfl | hz
      · exact hxy
      · exact trans x y z hxy (hy z hz)
    · simp only [insertOrd, hxy, ite_false]
      refine List.pairwise_cons.mpr ⟨?_, ih hys⟩
      intro z hz
      rcases (mem_insertOrd le x ys z).mp hz with hzx | hz
      · rw [hzx]
        have htot := total x y
        cases hle : le x y
        · simpa [hle] using htot
        · exact absurd hle hxy
      · exact hy z hz

theorem pairwise_sortOrd {α : Type} (le : α → α → Bool)
    (trans : ∀ a b c, le a b = true → le b c = true → le a c = true)
    (total : ∀ a b, (le a b || le b a) = true)
    (l : List α) : (sortOrd le l).Pairwise (fun a b => le a b = true) := by
  induction l with
  | nil => simp [sortOrd]
  | cons x xs ih => exact pairwise_insertOrd le trans total x _ ih


/-! ## Lexicographic comparison of natural-number lists

Kernel-computable lexicographic comparison, used for the report ordering:
each violation is flattened to a `List Nat` key (severity rank, category
rank, then the 0-terminated character codes of rule id and target id, an
order-preserving encoding of the string components).
-/

def natLe : List Nat → List Nat → Bool
  | [], _ => true
  | _ :: _, [] => false
  | a :: as, b :: bs =>
    if a < b then true
    else if b < a then false
    else natLe as bs

theorem natLe_total : ∀ as bs, (natLe as bs || natLe bs as) = true := by
  intro as
  induction as with
  | nil => intro bs; simp [natLe]
  | cons a as ih =>
    intro bs
    cases bs with
    | nil => simp [natLe]
    | cons b bs =>
      simp only [natLe]
      rcases Nat.lt_trichotomy a b with hab | hab | hab
      · simp [hab]
      · simp only [hab, lt_self_iff_false, ite_false]
        exact ih bs
      · simp [hab, Nat.lt_asymm hab]

theorem natLe_trans : ∀ as bs cs, natLe as bs = true → natLe bs cs = true →
    natLe as cs = true := by
  intro as
  induction as with
  | nil => intro bs cs _ _; simp [natLe]
  | cons a as ih =>
    intro bs cs h1 h2
    cases bs with
    | nil => simp [natLe] at h1
    | cons b bs =>
      cases cs with
      | nil => simp [natLe] at h2
      | cons c cs =>
        simp only [natLe] at h1 h2 ⊢
        rcases Nat.lt_trichotomy a b with hab | hab | hab <;>
          rcases Nat.lt_trichotomy b c with hbc | hbc | hbc
        · simp [Nat.lt_trans hab hbc]
        · simp [hbc ▸ hab]
        · simp [hbc, Nat.lt_asymm hbc] at h2
        · simp [hab ▸ hbc]
        · have hac : a = c := hab.trans hbc
          simp only [hab, lt_self_iff_false, ite_false] at h1
          simp only [hbc, lt_self_iff_false, ite_false] at h2
          simp only [hac, lt_self_iff_false, ite_false]
          exact ih bs cs h1 h2
        · simp [hbc, Nat.lt_asymm hbc] at h2
        · simp [hab, Nat.lt_asymm hab] at h1
        · simp [hab, Nat.lt_asymm hab] at h1
        · simp [hab, Nat.lt_asymm hab] at h1

namespace Qyntara

/-- Modelled from the spec: severity levels of the data model in section 3
(the engine implementation is absent from the source tree; all `Qyntara`
definitions are modelled from the specification text). -/
inductive Severity
  | Error
  | Warning
  | Info
deriving DecidableEq

/-- Modelled from the spec: rule categories of the data model in section 3. -/
inductive Category
  | Geometry
  | Transform
  | UV
  | Naming
  | Material
deriving DecidableEq

/-- Modelled from the spec: the five ordered fix phases of section 4.3. -/
inductive FixCategory
  | Sanitize
  | Transform
  | Topology
  | Surface
  | NamingMaterial
deriving DecidableEq

/-- Modelled from the spec: outcome of a single fix application (section 4.3). -/
inductive FixOutcome
  | Applied
  | NoOpAlreadyFixed
  | Failed (reason : String)
deriving DecidableEq

/-- Modelled from the spec: a Violation value (section 3).  The `category`
field carries the producing rule's category; the Report Aggregator needs it
for its category-ordered output. -/
structure Violation where
  rule_id : String
  target_id : String
  category : Category
  severity : Severity
  message : String
  fixable : Bool
  fix_category : Option FixCategory
deriving DecidableEq

/-- Severity rank used for the stable report ordering (Error first). -/
def sevRank : Severity → Nat
  | .Error => 0
  | .Warning => 1
  | .Info => 2

/-- Category rank used for the stable report ordering. -/
def catRank : Category → Nat
  | .Geometry => 0
  | .Transform => 1
  | .UV => 2
  | .Naming => 3
  | .Material => 4

/-- Order-preserving encoding of a string as shifted character codes with a
0 terminator (so a strict prefix sorts before its extensions, and
concatenating encodings preserves the componentwise lexicographic order). -/
def strCode (s : String) : List Nat :=
  s.data.map (fun c => c.toNat + 1) ++ [0]

/-- The flattened sort key of a violation: severity rank, category rank,
rule id, target id. -/
def vioKey (v : Violation) : List Nat :=
  sevRank v.severity :: catRank v.category :: (strCode v.rule_id ++ strCode v.target_id)

/-- Modelled from the spec: the Report Aggregator's stable violation order —
by severity, then category, then rule id, then target id (section 4.5). -/
def vioLe (a b : Violation) : Bool :=
  natLe (vioKey a) (vioKey b)

theorem vioLe_total : ∀ a b, (vioLe a b || vioLe b a) = true := by
  intro a b
  exact natLe_total (vioKey a) (vioKey b)

theorem vioLe_trans : ∀ a b c, vioLe a b = true → vioLe b c = true → vioLe a c = true := by
  intro a b c h1 h2
  exact natLe_trans (vioKey a) (vioKey b) (vioKey c) h1 h2

/-- The deduplication key of a violation (section 4.2): `(rule_id, target_id)`. -/
def vioDedupKey (v : Violation) : String × String :=
  (v.rule_id, v.target_id)

/-- Modelled from the spec: merge violations, keeping the first occurrence of
each `(rule_id, target_id)` pair (section 4.2). -/
def dedupGo (seen : List (String × String)) : List Violation → List Violation
  | [] => []
  | v :: vs =>
    if vioDedupKey v ∈ seen then dedupGo seen vs
    else v :: dedupGo (vioDedupKey v :: seen) vs

/-- Deduplicate a violation list by `(rule_id, target_id)`. -/
def dedupViolations (l : List Violation) : List Violation :=
  dedupGo [] l

/-- Modelled from the spec: a rule of the registry (section 3).  The
predicate runs against a read-only scene view `σ` and may fault, which the
shallow embedding represents with `Except`. -/
structure Rule (σ : Type) where
  id : String
  category : Category
  severity : Severity
  enabled : Bool
  predicate : σ → Except String (List Violation)

/-- Modelled from the spec: the synthetic Info-severity "rule execution
failed" violation produced when a predicate faults (section 4.2). -/
def syntheticViolation {σ : Type} (r : Rule σ) : Violation :=
  { rule_id := r.id
    target_id := ""
    category := r.category
    severity := .Info
    message := "rule execution failed"
    fixable := false
    fix_category := none }

/-- Modelled from the spec: run one rule in isolation (section 4.2): a
disabled rule contributes nothing; a faulting predicate degrades to the
synthetic Info violation and never aborts the run. -/
def runRule {σ : Type} (s : σ) (r : Rule σ) : List Violation :=
  if r.enabled then
    match r.predicate s with
    | .ok vs => vs
    | .error _ => [syntheticViolation r]
  else []

/-- Modelled from the spec: the merged raw violations of all rules, in rule
order (section 4.2). -/
def rawViolations {σ : Type} (s : σ) (rules : List (Rule σ)) : List Violation :=
  (rules.map (runRule s)).flatten

/-- Modelled from the spec: per-severity counts of a report (section 3). -/
structure SeverityCounts where
  errors : Nat
  warnings : Nat
  infos : Nat
deriving DecidableEq

/-- Count the violations of each severity. -/
def countSeverities (vs : List Violation) : SeverityCounts :=
  { errors := (vs.filter (fun v => v.severity == .Error)).length
    warnings := (vs.filter (fun v => v.severity == .Warning)).length
    infos := (vs.filter (fun v => v.severity == .Info)).length }

/-- Modelled from the spec: an immutable ValidationReport (section 3).  The
wall-clock timestamp of the spec is outside the embedding and omitted. -/
structure ValidationReport where
  violations : List Violation
  severity_counts : SeverityCounts
  pass : Bool
  iteration : Nat
deriving DecidableEq

/-- Modelled from the spec: the Validator Engine entry point combined with
the Report Aggregator roll-up (sections 4.2 and 4.5): run every rule in
isolation, merge, deduplicate by `(rule_id, target_id)`, order stably, count
severities, and gate `pass` on the absence of Error-severity violations. -/
def validate {σ : Type} (s : σ) (rules : List (Rule σ)) (iteration : Nat) :
    ValidationReport :=
  let vs := sortOrd vioLe (dedupViolations (rawViolations s rules))
  { violations := vs
    severity_counts := countSeverities vs
    pass := vs.all (fun v => v.severity != Severity.Error)
    iteration := iteration }

/-- Modelled from the spec: names of severities for serialized output. -/
def sevName : Severity → String
  | .Error => "Error"
  | .Warning => "Warning"
  | .Info => "Info"

/-- Modelled from the spec: names of categories for serialized output. -/
def catName : Category → String
  | .Geometry => "Geometry"
  | .Transform => "Transform"
  | .UV => "UV"
  | .Naming => "Naming"
  | .Material => "Material"

/-- Serialize one violation for the report consumer. -/
def serializeViolation (v : Violation) : String :=
  v.rule_id ++ ":" ++ v.target_id ++ ":" ++ sevName v.severity ++ ":" ++
    catName v.category ++ ":" ++ v.message ++ ":" ++
    (if v.fixable then "fixable" else "unfixable")

/-- Modelled from the spec: the Report Aggregator's serialized report
(section 4.5), a deterministic rendering of the stable violation order. -/
def serializeReport (r : ValidationReport) : String :=
  "pass=" ++ (if r.pass then "true" else "false") ++
    ";errors=" ++ toString r.severity_counts.errors ++
    ";warnings=" ++ toString r.severity_counts.warnings ++
    ";infos=" ++ toString r.severity_counts.infos ++
    ";iteration=" ++ toString r.iteration ++
    ";violations=" ++ String.intercalate "|" (r.violations.map serializeViolation)

/-- Modelled from the spec: the phase ordinal of each fix category
(section 4.3, listed order). -/
def phaseOf : FixCategory → Nat
  | .Sanitize => 1
  | .Transform => 2
  | .Topology => 3
  | .Surface => 4
  | .NamingMaterial => 5

/-- Modelled from the spec: the registry of fix actions, resolved per fix
category; applying an action mutates the scene and reports an outcome
(sections 3 and 4.3). -/
def FixRegistry (σ : Type) : Type :=
  FixCategory → σ → Violation → σ × FixOutcome

/-- Apply, in list order, the fix action of category `c` to each violation;
the returned trace records every call in call order. -/
def applyFixes {σ : Type} (reg : FixRegistry σ) (c : FixCategory) :
    σ → List Violation → σ × List (FixCategory × FixOutcome)
  | s, [] => (s, [])
  | s, v :: vs =>
    let r1 := reg c s v
    let rest := applyFixes reg c r1.1 vs
    (rest.1, (c, r1.2) :: rest.2)

/-- The violations a phase is responsible for: fixable, with a matching fix
category. -/
def phaseViolations (c : FixCategory) (vs : List Violation) : List Violation :=
  vs.filter (fun v => v.fixable && v.fix_category == some c)

/-- Run a single phase of the Fixer Engine over its violations. -/
def fixPhase {σ : Type} (reg : FixRegistry σ) (s : σ) (vs : List Violation)
    (c : FixCategory) : σ × List (FixCategory × FixOutcome) :=
  applyFixes reg c s (phaseViolations c vs)

/-- Modelled from the spec: one pass of the Fixer Engine (section 4.3) — the
five phases execute strictly in the listed order Sanitize, Transform,
Topology, Surface, Naming/Material; the trace records every fix application
in call order.  The Fixer Engine never re-validates. -/
def fix {σ : Type} (reg : FixRegistry σ) (s : σ) (vs : List Violation) :
    σ × List (FixCategory × FixOutcome) :=
  let r1 := fixPhase reg s vs .Sanitize
  let r2 := fixPhase reg r1.1 vs .Transform
  let r3 := fixPhase reg r2.1 vs .Topology
  let r4 := fixPhase reg r3.1 vs .Surface
  let r5 := fixPhase reg r4.1 vs .NamingMaterial
  (r5.1, r1.2 ++ r2.2 ++ r3.2 ++ r4.2 ++ r5.2)

/-- Modelled from the spec: terminal session outcomes of the Convergence
Controller (section 4.4). -/
inductive SessionOutcome
  | Clean
  | Stalled
  | MaxIterationsExceeded
deriving DecidableEq

/-- Modelled from the spec: the progress signature of a report — the
outstanding `(rule_id, target_id)` pairs (section 4.4).  Reports are
deduplicated and stably ordered, so this list is a canonical representation
of the signature multiset. -/
def signature (r : ValidationReport) : List (String × String) :=
  r.violations.map vioDedupKey

/-- Modelled from the spec: the archived result of a fix session
(section 3): final scene, the reports produced in order (one per `validate`
call), the last report, the terminal outcome, and the number of `fix`
calls. -/
structure SessionResult (σ : Type) where
  scene : σ
  history : List ValidationReport
  final : ValidationReport
  outcome : SessionOutcome
  fixCalls : Nat

/-- Modelled from the spec: the validate→fix→revalidate loop of the
Convergence Controller (section 4.4, steps 3-8).  `fuel` is the number of
remaining allowed iterations; `prev` is the previous report; exhausted fuel
is the configured bound being reached, terminating `MaxIterationsExceeded`
with the last report. -/
def autoFixLoop {σ : Type} (reg : FixRegistry σ) (rules : List (Rule σ)) :
    Nat → σ → ValidationReport → Nat → SessionResult σ
  | 0, s, prev, _iter =>
    { scene := s, history := [], final := prev,
      outcome := .MaxIterationsExceeded, fixCalls := 0 }
  | fuel + 1, s, prev, iter =>
    let s1 := (fix reg s prev.violations).1
    let r := validate s1 rules (iter + 1)
    if signature r = signature prev then
      { scene := s1, history := [r], final := r, outcome := .Stalled, fixCalls := 1 }
    else if r.pass then
      { scene := s1, history := [r], final := r, outcome := .Clean, fixCalls := 1 }
    else
      let rest := autoFixLoop reg rules fuel s1 r (iter + 1)
      { scene := rest.scene, history := r :: rest.history, final := rest.final,
        outcome := rest.outcome, fixCalls := rest.fixCalls + 1 }

/-- Modelled from the spec: the gate command `autoFix` (sections 4.4 and 6):
validate, terminate `Clean` if the first report passes, otherwise drive the
fix loop under the configured iteration bound. -/
def autoFix {σ : Type} (reg : FixRegistry σ) (rules : List (Rule σ)) (s : σ)
    (maxIterations : Nat) : SessionResult σ :=
  let r0 := validate s rules 1
  if r0.pass then
    { scene := s, history := [r0], final := r0, outcome := .Clean, fixCalls := 0 }
  else
    let rest := autoFixLoop reg rules (maxIterations - 1) s r0 1
    { scene := rest.scene, history := r0 :: rest.history, final := rest.final,
      outcome := rest.outcome, fixCalls := rest.fixCalls }

theorem autoFixLoop_length {σ : Type} (reg : FixRegistry σ) (rules : List (Rule σ)) :
    ∀ fuel (s : σ) prev iter,
      (autoFixLoop reg rules fuel s prev iter).history.length ≤ fuel := by
  intro fuel
  induction fuel with
  | zero => intro s prev iter; simp [autoFixLoop]
  | succ n ih =>
    intro s prev iter
    simp only [autoFixLoop]
    split_ifs
    · simp
    · simp
    · simpa using Nat.succ_le_succ (ih _ _ _)

theorem autoFixLoop_fixCalls {σ : Type} (reg : FixRegistry σ) (rules : List (Rule σ)) :
    ∀ fuel (s : σ) prev iter,
      (autoFixLoop reg rules fuel s prev iter).fixCalls ≤ fuel := by
  intro fuel
  induction fuel with
  | zero => intro s prev iter; simp [autoFixLoop]
  | succ n ih =>
    intro s prev iter
    simp only [autoFixLoop]
    split_ifs
    · simp
    · simp
    · simpa using Nat.succ_le_succ (ih _ _ _)

theorem autoFixLoop_getLastD {σ : Type} (reg : FixRegistry σ) (rules : List (Rule σ)) :
    ∀ fuel (s : σ) prev iter,
      (autoFixLoop reg rules fuel s prev iter).history.getLastD prev =
        (autoFixLoop reg rules fuel s prev iter).final := by
  intro fuel
  induction fuel with
  | zero => intro s prev iter; simp [autoFixLoop]
  | succ n ih =>
    intro s prev iter
    simp only [autoFixLoop]
    split_ifs
    · simp
    · simp
    · rw [List.getLastD_cons]
      exact ih _ _ _

theorem autoFixLoop_mie_pass {σ : Type} (reg : FixRegistry σ) (rules : List (Rule σ)) :
    ∀ fuel (s : σ) prev iter, prev.pass = false →
      (autoFixLoop reg rules fuel s prev iter).outcome = .MaxIterationsExceeded →
      (autoFixLoop reg rules fuel s prev iter).final.pass = false := by
  intro fuel
  induction fuel with
  | zero => intro s prev iter hprev _; simpa [autoFixLoop] using hprev
  | succ n ih =>
    intro s prev iter hprev hout
    simp only [autoFixLoop] at hout ⊢
    by_cases h1 : signature (validate ((fix reg s prev.violations).1) rules (iter + 1)) =
        signature prev
    · rw [if_pos h1] at hout
      simp at hout
    · rw [if_neg h1] at hout ⊢
      by_cases h2 : (validate ((fix reg s prev.violations).1) rules (iter + 1)).pass = true
      · rw [if_pos h2] at hout
        simp at hout
      · rw [if_neg h2] at hout ⊢
        exact ih _ _ _ (by simpa using h2) hout

theorem autoFixLoop_stalled_iff {σ : Type} (reg : FixRegistry σ) (rules : List (Rule σ)) :
    ∀ fuel (s : σ) prev iter,
      (autoFixLoop reg rules fuel s prev iter).outcome = .Stalled ↔
        ¬ List.Chain' (fun a b => signature a ≠ signature b)
            (prev :: (autoFixLoop reg rules fuel s prev iter).history) := by
  intro fuel
  induction fuel with
  | zero => intro s prev iter; simp [autoFixLoop]
  | succ n ih =>
    intro s prev iter
    simp only [autoFixLoop]
    split_ifs with h1 h2
    · constructor
      · intro _
        rw [List.chain'_cons]
        intro hc
        exact hc.1 h1.symm
      · intro _
        rfl
    · constructor
      · intro h
        exact absurd h (by decide)
      · intro hc
        rw [List.chain'_cons] at hc
        exact absurd ⟨fun he => h1 he.symm, List.chain'_singleton _⟩ hc
    · have hne : signature prev ≠
          signature (validate ((fix reg s prev.violations).1) rules (iter + 1)) :=
        fun he => h1 he.symm
      rw [List.chain'_cons]
      constructor
      · intro h hc
        exact ((ih _ _ _).mp h) hc.2
      · intro hc
        apply (ih _ _ _).mpr
        intro hch
        exact hc ⟨hne, hch⟩

theorem autoFixLoop_final_validate {σ : Type} (reg : FixRegistry σ) (rules : List (Rule σ)) :
    ∀ fuel (s : σ) prev iter, (∃ k, prev = validate s rules k) →
      ∃ k, (autoFixLoop reg rules fuel s prev iter).final =
        validate (autoFixLoop reg rules fuel s prev iter).scene rules k := by
  intro fuel
  induction fuel with
  | zero => intro s prev iter hk; simpa [autoFixLoop] using hk
  | succ n ih =>
    intro s prev iter _hk
    simp only [autoFixLoop]
    split_ifs
    · exact ⟨iter + 1, rfl⟩
    · exact ⟨iter + 1, rfl⟩
    · exact ih _ _ _ ⟨iter + 1, rfl⟩

theorem applyFixes_trace {σ : Type} (reg : FixRegistry σ) (c : FixCategory) :
    ∀ (vs : List Violation) (s : σ), ∀ p ∈ (applyFixes reg c s vs).2, p.1 = c := by
  intro vs
  induction vs with
  | nil => intro s p hp; simp [applyFixes] at hp
  | cons v vs ih =>
    intro s p hp
    simp only [applyFixes, List.mem_cons] at hp
    rcases hp with rfl | hp
    · rfl
    · exact ih _ p hp

theorem fixPhase_trace {σ : Type} (reg : FixRegistry σ) (s : σ) (vs : List Violation)
    (c : FixCategory) : ∀ p ∈ (fixPhase reg s vs c).2, p.1 = c :=
  applyFixes_trace reg c (phaseViolations c vs) s

theorem pairwise_phase_const (c : FixCategory) (l : List (FixCategory × FixOutcome))
    (h : ∀ p ∈ l, p.1 = c) :
    l.Pairwise (fun p q => phaseOf p.1 ≤ phaseOf q.1) := by
  induction l with
  | nil => exact List.Pairwise.nil
  | cons x xs ih =>
    refine List.pairwise_cons.mpr ⟨?_, ih (fun p hp => h p (List.mem_cons_of_mem _ hp))⟩
    intro q hq
    rw [h x (List.mem_cons_self _ _), h q (List.mem_cons_of_mem _ hq)]

theorem fix_trace_pairwise {σ : Type} (reg : FixRegistry σ) (s : σ) (vs : List Violation) :
    (fix reg s vs).2.Pairwise (fun p q => phaseOf p.1 ≤ phaseOf q.1) := by
  have hflat : (fix reg s vs).2 =
      ([(fixPhase reg s vs .Sanitize).2,
        (fixPhase reg ((fixPhase reg s vs .Sanitize).1) vs .Transform).2,
        (fixPhase reg ((fixPhase reg ((fixPhase reg s vs .Sanitize).1) vs .Transform).1)
          vs .Topology).2,
        (fixPhase reg ((fixPhase reg ((fixPhase reg ((fixPhase reg s vs .Sanitize).1)
          vs .Transform).1) vs .Topology).1) vs .Surface).2,
        (fixPhase reg ((fixPhase reg ((fixPhase reg ((fixPhase reg ((fixPhase reg s vs
          .Sanitize).1) vs .Transform).1) vs .Topology).1) vs .Surface).1)
          vs .NamingMaterial).2] :
        List (List (FixCategory × FixOutcome))).flatten := by
    simp [fix, List.flatten, List.append_assoc]
  rw [hflat, List.pairwise_flatten]
  constructor
  · intro l hl
    simp only [List.mem_cons, List.not_mem_nil, or_false] at hl
    rcases hl with rfl | rfl | rfl | rfl | rfl
    · exact pairwise_phase_const .Sanitize _ (fixPhase_trace reg _ vs .Sanitize)
    · exact pairwise_phase_const .Transform _ (fixPhase_trace reg _ vs .Transform)
    · exact pairwise_phase_const .Topology _ (fixPhase_trace reg _ vs .Topology)
    · exact pairwise_phase_const .Surface _ (fixPhase_trace reg _ vs .Surface)
    · exact pairwise_phase_const .NamingMaterial _ (fixPhase_trace reg _ vs .NamingMaterial)
  · refine List.pairwise_cons.mpr ⟨?_, List.pairwise_cons.mpr ⟨?_,
      List.pairwise_cons.mpr ⟨?_, List.pairwise_cons.mpr ⟨?_,
        List.pairwise_singleton _ _⟩⟩⟩⟩ <;>
      intro l hl <;>
      simp only [List.mem_cons, List.not_mem_nil, or_false] at hl <;>
      intro x hx y hy
    · rcases hl with rfl | rfl | rfl | rfl <;>
        rw [fixPhase_trace reg _ vs _ x hx, fixPhase_trace reg _ vs _ y hy] <;> decide
    · rcases hl with rfl | rfl | rfl <;>
        rw [fixPhase_trace reg _ vs _ x hx, fixPhase_trace reg _ vs _ y hy] <;> decide
    · rcases hl with rfl | rfl <;>
        rw [fixPhase_trace reg _ vs _ x hx, fixPhase_trace reg _ vs _ y hy] <;> decide
    · rcases hl with rfl <;>
        rw [fixPhase_trace reg _ vs _ x hx, fixPhase_trace reg _ vs _ y hy] <;> decide

theorem validate_pass_iff {σ : Type} (s : σ) (rules : List (Rule σ)) (i : Nat) :
    (validate s rules i).pass = true ↔
      ∀ v ∈ (validate s rules i).violations, v.severity ≠ Severity.Error := by
  simp [validate, List.all_eq_true]

theorem validate_violations_iter {σ : Type} (s : σ) (rules : List (Rule σ)) (i j : Nat) :
    (validate s rules i).violations = (validate s rules j).violations := rfl

theorem rawViolations_append {σ : Type} (s : σ) (l₁ l₂ : List (Rule σ)) :
    rawViolations s (l₁ ++ l₂) = rawViolations s l₁ ++ rawViolations s l₂ := by
  simp [rawViolations]

theorem runRule_error {σ : Type} (s : σ) (r : Rule σ) (msg : String)
    (henabled : r.enabled = true) (herr : r.predicate s = .error msg) :
    runRule s r = [syntheticViolation r] := by
  simp [runRule, henabled, herr]

theorem autoFix_history_length {σ : Type} (reg : FixRegistry σ) (rules : List (Rule σ))
    (s : σ) (mi : Nat) (h : 1 ≤ mi) :
    (autoFix reg rules s mi).history.length ≤ mi := by
  simp only [autoFix]
  split_ifs
  · simpa using h
  · have := autoFixLoop_length reg rules (mi - 1) s (validate s rules 1) 1
    simp only [List.length_cons]
    omega

theorem autoFix_fixCalls {σ : Type} (reg : FixRegistry σ) (rules : List (Rule σ))
    (s : σ) (mi : Nat) (h : 1 ≤ mi) :
    (autoFix reg rules s mi).fixCalls ≤ mi := by
  simp only [autoFix]
  split_ifs
  · simp
  · have := autoFixLoop_fixCalls reg rules (mi - 1) s (validate s rules 1) 1
    simp only
    omega

theorem autoFix_getLast {σ : Type} (reg : FixRegistry σ) (rules : List (Rule σ))
    (s : σ) (mi : Nat) :
    (autoFix reg rules s mi).history.getLast? = some (autoFix reg rules s mi).final := by
  simp only [autoFix]
  split_ifs
  · rfl
  · have h := autoFixLoop_getLastD reg rules (mi - 1) s (validate s rules 1) 1
    simp only [List.getLast?_cons]
    rw [← List.getLastD_eq_getLast?, h]

theorem autoFix_mie_pass {σ : Type} (reg : FixRegistry σ) (rules : List (Rule σ))
    (s : σ) (mi : Nat)
    (hout : (autoFix reg rules s mi).outcome = .MaxIterationsExceeded) :
    (autoFix reg rules s mi).final.pass = false := by
  have h := autoFixLoop_mie_pass reg rules (mi - 1) s (validate s rules 1) 1
  simp only [autoFix] at hout ⊢
  by_cases hpass : (validate s rules 1).pass = true
  · rw [if_pos hpass] at hout
    simp at hout
  · rw [if_neg hpass] at hout ⊢
    exact h (by simpa using hpass) hout

theorem autoFix_stalled_iff {σ : Type} (reg : FixRegistry σ) (rules : List (Rule σ))
    (s : σ) (mi : Nat) :
    (autoFix reg rules s mi).outcome = .Stalled ↔
      ¬ List.Chain' (fun a b => signature a ≠ signature b)
          (autoFix reg rules s mi).history := by
  simp only [autoFix]
  split_ifs
  · constructor
    · intro h
      exact absurd h (by decide)
    · intro hc
      exact absurd (List.chain'_singleton _) hc
  · exact autoFixLoop_stalled_iff reg rules (mi - 1) s (validate s rules 1) 1

theorem autoFix_final_validate {σ : Type} (reg : FixRegistry σ) (rules : List (Rule σ))
    (s : σ) (mi : Nat) :
    ∃ k, (autoFix reg rules s mi).final =
      validate (autoFix reg rules s mi).scene rules k := by
  simp only [autoFix]
  split_ifs
  · exact ⟨1, rfl⟩
  · exact autoFixLoop_final_validate reg rules (mi - 1) s (validate s rules 1) 1 ⟨1, rfl⟩

/-! ### A concrete scene model

Modelled from the spec: a minimal instance of the Scene Access Interface
(section 6) used to exercise the engine on concrete inputs — five dirty
flags, one per fix phase, each category-specific mutator clearing its flag
idempotently. -/

structure FlagScene where
  needsSanitize : Bool
  needsTransform : Bool
  needsTopology : Bool
  needsSurface : Bool
  needsNaming : Bool
deriving DecidableEq

/-- The dirty flag a fix category repairs. -/
def flagOf : FixCategory → FlagScene → Bool
  | .Sanitize, s => s.needsSanitize
  | .Transform, s => s.needsTransform
  | .Topology, s => s.needsTopology
  | .Surface, s => s.needsSurface
  | .NamingMaterial, s => s.needsNaming

/-- Set the dirty flag a fix category repairs. -/
def setFlag : FixCategory → Bool → FlagScene → FlagScene
  | .Sanitize, b, s => { s with needsSanitize := b }
  | .Transform, b, s => { s with needsTransform := b }
  | .Topology, b, s => { s with needsTopology := b }
  | .Surface, b, s => { s with needsSurface := b }
  | .NamingMaterial, b, s => { s with needsNaming := b }

/-- Modelled from the spec: the default fix-action registry over `FlagScene`
— each `apply` repairs its flag and is idempotent: on a target already in
the fixed state it is a no-op returning `NoOpAlreadyFixed` (section 3). -/
def defaultRegistry : FixRegistry FlagScene := fun c s _v =>
  if flagOf c s then (setFlag c false s, .Applied) else (s, .NoOpAlreadyFixed)

theorem flagOf_setFlag_self (c : FixCategory) (s : FlagScene) (b : Bool) :
    flagOf c (setFlag c b s) = b := by
  cases c <;> rfl

/-- A fully dirty `FlagScene`. -/
def dirtyScene : FlagScene :=
  { needsSanitize := true, needsTransform := true, needsTopology := true,
    needsSurface := true, needsNaming := true }

/-- A fully clean `FlagScene`. -/
def cleanScene : FlagScene :=
  { needsSanitize := false, needsTransform := false, needsTopology := false,
    needsSurface := false, needsNaming := false }

/-- A concrete Sanitize-phase violation (construction history present). -/
def vSanitize : Violation :=
  { rule_id := "history", target_id := "m1", category := .Geometry,
    severity := .Warning, message := "construction history present",
    fixable := true, fix_category := some .Sanitize }

/-- A concrete Topology-phase violation (n-gon present). -/
def vTopology : Violation :=
  { rule_id := "ngons", target_id := "m1", category := .Geometry,
    severity := .Error, message := "ngon present",
    fixable := true, fix_category := some .Topology }

/-! ### The two-rule fix-cycle model

Modelled from the spec: the stall-detection scenario of section 8 — a scene
and registry in which rule A's fix reintroduces rule B's violation and vice
versa, so a fix pass never makes progress. -/

structure CycleScene where
  aBad : Bool
  bBad : Bool
deriving DecidableEq

/-- The violation rule A reports. -/
def cycleViolationA : Violation :=
  { rule_id := "A", target_id := "t", category := .Geometry,
    severity := .Error, message := "A violated",
    fixable := true, fix_category := some .Topology }

/-- The violation rule B reports. -/
def cycleViolationB : Violation :=
  { rule_id := "B", target_id := "t", category := .Geometry,
    severity := .Error, message := "B violated",
    fixable := true, fix_category := some .Topology }

/-- Rule A of the fix-cycle scenario. -/
def cycleRuleA : Rule CycleScene :=
  { id := "A", category := .Geometry, severity := .Error, enabled := true,
    predicate := fun s => .ok (if s.aBad then [cycleViolationA] else []) }

/-- Rule B of the fix-cycle scenario. -/
def cycleRuleB : Rule CycleScene :=
  { id := "B", category := .Geometry, severity := .Error, enabled := true,
    predicate := fun s => .ok (if s.bBad then [cycleViolationB] else []) }

/-- The fix-cycle ruleset. -/
def cycleRules : List (Rule CycleScene) := [cycleRuleA, cycleRuleB]

/-- Modelled from the spec: the fix-cycle registry — fixing A's violation
sets B's flag and vice versa, so a whole pass leaves the scene unchanged. -/
def cycleReg : FixRegistry CycleScene := fun _c s v =>
  if v.rule_id == "A" then ({ s with bBad := true }, .Applied)
  else if v.rule_id == "B" then ({ s with aBad := true }, .Applied)
  else (s, .NoOpAlreadyFixed)

/-- A rule whose predicate always faults. -/
def crashRule : Rule CycleScene :=
  { id := "crash", category := .Naming, severity := .Error, enabled := true,
    predicate := fun _ => .error "predicate fault" }

end Qyntara

namespace Frontend

/-! ## Frontend models

Translated from the TypeScript sources under `frontend/app` and
`src/unnamed/part_001`.
-/

/-- Character-list prefix test, the helper of the substring check below. -/
def leadsWith : List Char → List Char → Bool
  | [], _ => true
  | _ :: _, [] => false
  | a :: as, b :: bs => a == b && leadsWith as bs

/-- Substring occurrence of `pat` in a character list. -/
def occursIn (pat : List Char) : List Char → Bool
  | [] => pat.isEmpty
  | c :: rest => leadsWith pat (c :: rest) || occursIn pat rest

/-- JavaScript `s.includes(pat)` on strings. -/
def sIncludes (s pat : String) : Bool :=
  occursIn pat.data s.data

/-- Translated from `useNeuralLink.ts` (the `Home` component, line 184 and
line 138): the hardcoded access key. -/
def magicKey : String := "QYNTARA-X-777"

/-- The authentication state of the `Home` component. -/
structure HomeState where
  isAuthenticated : Bool
deriving DecidableEq

/-- Translated from `useNeuralLink.ts` line 184: the `onLogin` callback
passed to `LoginPage` compares the submitted key with the hardcoded string
and only then sets `isAuthenticated` to true. -/
def handleLogin (st : HomeState) (k : String) : HomeState :=
  if k = magicKey then { st with isAuthenticated := true } else st

/-- Translated from `useNeuralLink.ts` line 138: the headers of an
`executePipeline` request, depending on whether a file is attached. -/
def pipelineHeaders (hasFile : Bool) : List (String × String) :=
  if hasFile then [("x-qyntara-key", magicKey)]
  else [("Content-Type", "application/json"), ("x-qyntara-key", magicKey)]

/-- A pipeline stage of `PipelineProgress.tsx`. -/
structure Stage where
  id : String
  label : String
  keywords : List String

/-- Translated from `PipelineProgress.tsx` lines 10-17: the STAGES table. -/
def STAGES : List Stage :=
  [ { id := "segment", label := "SEGMENTATION", keywords := ["Segmentation"] },
    { id := "validate", label := "VALIDATION", keywords := ["Validating", "Compliance"] },
    { id := "uv", label := "UV UNWRAP", keywords := ["UVs", "Lightmap"] },
    { id := "remesh", label := "REMESHING", keywords := ["Remeshing", "Quad"] },
    { id := "gen", label := "GENERATIVE", keywords := ["Generating 3D", "Vision-to-3D"] },
    { id := "export", label := "EXPORT", keywords := ["Export"] } ]

/-- Some keyword of the stage occurs in the message. -/
def stageHit (msg : String) (st : Stage) : Bool :=
  st.keywords.any (fun k => sIncludes msg k)

/-- Translated from `PipelineProgress.tsx` lines 28-32: the inner forEach
over the stages of one log message. -/
def innerStep (acc : Int) (msg : String) : Int :=
  STAGES.enum.foldl (fun a p => if stageHit msg p.2 then max a (p.1 : Int) else a) acc

/-- Translated from `PipelineProgress.tsx` lines 26-33: the nested forEach
accumulating the maximal index of a stage mentioned in some message. -/
def maxStageScan (messages : List String) : Int :=
  messages.foldl innerStep (-1)

/-- Translated from `PipelineProgress.tsx` lines 20-35: `currentStageIndex`. -/
def currentStageIndex (messages : List String) : Int :=
  if messages.length = 0 then -1
  else if sIncludes (messages.getLastD "") "Pipeline Complete" then (STAGES.length : Int)
  else maxStageScan messages

theorem innerScan_ge (msg : String) :
    ∀ (l : List (Nat × Stage)) (acc : Int),
      acc ≤ l.foldl (fun a p => if stageHit msg p.2 then max a (p.1 : Int) else a) acc := by
  intro l
  induction l with
  | nil => intro acc; exact le_refl acc
  | cons p l ih =>
    intro acc
    refine le_trans ?_ (ih _)
    by_cases h : stageHit msg p.2 <;> simp [h] <;> omega

theorem innerScan_hit (msg : String) :
    ∀ (l : List (Nat × Stage)) (acc : Int) (p : Nat × Stage), p ∈ l →
      stageHit msg p.2 = true →
      (p.1 : Int) ≤ l.foldl (fun a p => if stageHit msg p.2 then max a (p.1 : Int) else a) acc := by
  intro l
  induction l with
  | nil => intro acc p hp; simp at hp
  | cons q l ih =>
    intro acc p hp hhit
    rcases List.mem_cons.mp hp with rfl | hp
    · simp only [List.foldl_cons, hhit, ite_true]
      refine le_trans ?_ (innerScan_ge msg l _)
      omega
    · simp only [List.foldl_cons]
      exact ih _ p hp hhit

theorem innerScan_cases (msg : String) :
    ∀ (l : List (Nat × Stage)) (acc : Int),
      l.foldl (fun a p => if stageHit msg p.2 then max a (p.1 : Int) else a) acc = acc ∨
        ∃ p ∈ l, stageHit msg p.2 = true ∧
          l.foldl (fun a p => if stageHit msg p.2 then max a (p.1 : Int) else a) acc =
            (p.1 : Int) := by
  intro l
  induction l with
  | nil => intro acc; exact Or.inl rfl
  | cons q l ih =>
    intro acc
    simp only [List.foldl_cons]
    by_cases h : stageHit msg q.2
    · rw [if_pos h]
      rcases ih (max acc (q.1 : Int)) with heq | ⟨p, hp, hhit, heq⟩
      · rcases le_total acc (q.1 : Int) with hle | hle
        · refine Or.inr ⟨q, List.mem_cons_self _ _, h, ?_⟩
          rw [heq]
          omega
        · refine Or.inl ?_
          rw [heq]
          omega
      · exact Or.inr ⟨p, List.mem_cons_of_mem _ hp, hhit, heq⟩
    · rw [if_neg h]
      rcases ih acc with heq | ⟨p, hp, hhit, heq⟩
      · exact Or.inl heq
      · exact Or.inr ⟨p, List.mem_cons_of_mem _ hp, hhit, heq⟩

theorem innerStep_ge (acc : Int) (msg : String) : acc ≤ innerStep acc msg :=
  innerScan_ge msg STAGES.enum acc

theorem innerStep_hit (acc : Int) (msg : String) (p : Nat × Stage)
    (hp : p ∈ STAGES.enum) (hhit : stageHit msg p.2 = true) :
    (p.1 : Int) ≤ innerStep acc msg :=
  innerScan_hit msg STAGES.enum acc p hp hhit

theorem innerStep_cases (acc : Int) (msg : String) :
    innerStep acc msg = acc ∨
      ∃ p ∈ STAGES.enum, stageHit msg p.2 = true ∧ innerStep acc msg = (p.1 : Int) :=
  innerScan_cases msg STAGES.enum acc

theorem outerScan_ge : ∀ (msgs : List String) (acc : Int), acc ≤ msgs.foldl innerStep acc := by
  intro msgs
  induction msgs with
  | nil => intro acc; exact le_refl acc
  | cons m ms ih =>
    intro acc
    exact le_trans (innerStep_ge acc m) (ih _)

theorem outerScan_hit : ∀ (msgs : List String) (acc : Int) (msg : String), msg ∈ msgs →
    ∀ p ∈ STAGES.enum, stageHit msg p.2 = true →
      (p.1 : Int) ≤ msgs.foldl innerStep acc := by
  intro msgs
  induction msgs with
  | nil => intro acc msg hmsg; simp at hmsg
  | cons m ms ih =>
    intro acc msg hmsg p hp hhit
    rcases List.mem_cons.mp hmsg with rfl | hmsg
    · exact le_trans (innerStep_hit acc msg p hp hhit) (outerScan_ge ms _)
    · exact ih _ msg hmsg p hp hhit

theorem outerScan_cases : ∀ (msgs : List String) (acc : Int),
    msgs.foldl innerStep acc = acc ∨
      ∃ msg ∈ msgs, ∃ p ∈ STAGES.enum, stageHit msg p.2 = true ∧
        msgs.foldl innerStep acc = (p.1 : Int) := by
  intro msgs
  induction msgs with
  | nil => intro acc; exact Or.inl rfl
  | cons m ms ih =>
    intro acc
    simp only [List.foldl_cons]
    rcases ih (innerStep acc m) with heq | ⟨msg, hmsg, p, hp, hhit, heq⟩
    · rcases innerStep_cases acc m with h2 | ⟨p, hp, hhit, h2⟩
      · exact Or.inl (heq.trans h2)
      · exact Or.inr ⟨m, List.mem_cons_self _ _, p, hp, hhit, heq.trans h2⟩
    · exact Or.inr ⟨msg, List.mem_cons_of_mem _ hmsg, p, hp, hhit, heq⟩

/-- Translated from `FloorPlanWorkspace` (src/unnamed/part_001, lines 19-22):
the component state driving calibration.  Coordinates and lengths are
modelled as `ℚ`; the pixels-per-meter value, computed with `Math.sqrt`, as
`ℝ`. -/
structure FloorPlanState where
  isCalibrating : Bool
  calibrationPoints : List (ℚ × ℚ)
  pixelsPerMeter : ℝ
  calibrationLength : ℚ

/-- The data of a click event on the preview image. -/
structure ClickData where
  clientX : ℚ
  clientY : ℚ
  rectLeft : ℚ
  rectTop : ℚ
  rectWidth : ℚ
  rectHeight : ℚ
  naturalWidth : ℚ
  naturalHeight : ℚ

/-- Translated from `handleImageClick` (part_001 lines 35-46): the clicked
point scaled to natural image coordinates. -/
def clickPoint (d : ClickData) : ℚ × ℚ :=
  ((d.clientX - d.rectLeft) * (d.naturalWidth / d.rectWidth),
   (d.clientY - d.rectTop) * (d.naturalHeight / d.rectHeight))

/-- Translated from `handleImageClick` (part_001 lines 33-51): ignore clicks
outside calibration mode; append the scaled point only while fewer than two
points are stored. -/
def handleImageClick (st : FloorPlanState) (d : ClickData) : FloorPlanState :=
  if !st.isCalibrating then st
  else if st.calibrationPoints.length < 2 then
    { st with calibrationPoints := st.calibrationPoints ++ [clickPoint d] }
  else st

/-- Euclidean distance between two rational points, as a real
(`Math.sqrt(Math.pow(p2.x - p1.x, 2) + Math.pow(p2.y - p1.y, 2))`). -/
noncomputable def eDist (p1 p2 : ℚ × ℚ) : ℝ :=
  Real.sqrt (((p2.1 - p1.1) ^ 2 + (p2.2 - p1.2) ^ 2 : ℚ) : ℝ)

/-- Translated from `finishCalibration` (part_001 lines 53-64): only with
exactly two stored points, set pixels-per-meter to their distance divided by
the calibration length (no guard against a zero length), clear the points
and leave calibration mode. -/
noncomputable def finishCalibration (st : FloorPlanState) : FloorPlanState :=
  match st.calibrationPoints with
  | [p1, p2] =>
    { st with pixelsPerMeter := eDist p1 p2 / (st.calibrationLength : ℝ),
              isCalibrating := false,
              calibrationPoints := [] }
  | _ => st

/-- The calibration-related events of the component. -/
inductive FloorPlanEvent
  | imageClick (d : ClickData)
  | startCalibration
  | cancelCalibration
  | finishCalibration
  | setLength (q : ℚ)
  | drop

/-- Translated from part_001: the event handlers of the component — the
image click (lines 33-51), the CALIBRATE SCALE button (line 132, which also
clears the stored points), the CANCEL button (line 151), the SET button
(line 150), the length input (line 144) and a new file drop (line 28, which
clears the points). -/
noncomputable def floorPlanStep (st : FloorPlanState) : FloorPlanEvent → FloorPlanState
  | .imageClick d => handleImageClick st d
  | .startCalibration => { st with isCalibrating := true, calibrationPoints := [] }
  | .cancelCalibration => { st with isCalibrating := false }
  | .finishCalibration => finishCalibration st
  | .setLength q => { st with calibrationLength := q }
  | .drop => { st with calibrationPoints := [] }

/-- Translated from part_001 lines 19-22: the initial component state (not
calibrating, no points, 50 px/m default, 1 meter reference length). -/
noncomputable def initFloorPlan : FloorPlanState :=
  { isCalibrating := false, calibrationPoints := [], pixelsPerMeter := 50,
    calibrationLength := 1 }

/-- Run a sequence of events from the initial state. -/
noncomputable def runFloorPlan (evts : List FloorPlanEvent) : FloorPlanState :=
  evts.foldl floorPlanStep initFloorPlan

theorem floorPlanStep_points_le (st : FloorPlanState) (e : FloorPlanEvent)
    (h : st.calibrationPoints.length ≤ 2) :
    (floorPlanStep st e).calibrationPoints.length ≤ 2 := by
  cases e with
  | imageClick d =>
    simp only [floorPlanStep, handleImageClick]
    split_ifs with h1 h2
    · exact h
    · simp only [List.length_append, List.length_singleton]
      omega
    · exact h
  | startCalibration => simp [floorPlanStep]
  | cancelCalibration => simpa [floorPlanStep] using h
  | finishCalibration =>
    simp only [floorPlanStep, finishCalibration]
    split
    · simp
    · exact h
  | setLength q => simpa [floorPlanStep] using h
  | drop => simp [floorPlanStep]

theorem runFloorPlanFrom_points_le :
    ∀ (evts : List FloorPlanEvent) (st : FloorPlanState),
      st.calibrationPoints.length ≤ 2 →
      (evts.foldl floorPlanStep st).calibrationPoints.length ≤ 2 := by
  intro evts
  induction evts with
  | nil => intro st h; exact h
  | cons e es ih =>
    intro st h
    exact ih _ (floorPlanStep_points_le st e h)

theorem handleImageClick_not_calibrating (st : FloorPlanState) (d : ClickData)
    (h : st.isCalibrating = false) : handleImageClick st d = st := by
  simp [handleImageClick, h]

theorem handleImageClick_full (st : FloorPlanState) (d : ClickData)
    (h : 2 ≤ st.calibrationPoints.length) : handleImageClick st d = st := by
  simp only [handleImageClick]
  split_ifs with h1 h2
  · rfl
  · omega
  · rfl

theorem handleImageClick_append (st : FloorPlanState) (d : ClickData)
    (h1 : st.isCalibrating = true) (h2 : st.calibrationPoints.length < 2) :
    handleImageClick st d =
      { st with calibrationPoints := st.calibrationPoints ++ [clickPoint d] } := by
  simp [handleImageClick, h1, h2]

theorem finishCalibration_two (st : FloorPlanState) (p1 p2 : ℚ × ℚ)
    (h : st.calibrationPoints = [p1, p2]) :
    finishCalibration st =
      { st with pixelsPerMeter := eDist p1 p2 / (st.calibrationLength : ℝ),
                isCalibrating := false, calibrationPoints := [] } := by
  unfold finishCalibration
  rw [h]

theorem finishCalibration_ne (st : FloorPlanState)
    (h : st.calibrationPoints.length ≠ 2) : finishCalibration st = st := by
  unfold finishCalibration
  split
  · rename_i p1 p2 heq
    exfalso
    apply h
    rw [heq]
    rfl
  · rfl

end Frontend

/-! ## Claim theorems -/

/-- C1: for every scene, ruleset and bound `maxIterations` (at least 1),
`autoFix` terminates (it is a total function of the embedding) making at
most `maxIterations` validate calls (one report per call is archived in
`history`) and at most `maxIterations` fix calls; the carried `final` report
is the last one produced, and when the bound is reached without a clean
report the outcome is `MaxIterationsExceeded` with that failing report
attached. -/
theorem C1_autoFix_terminates_bounded {σ : Type} (reg : Qyntara.FixRegistry σ)
    (rules : List (Qyntara.Rule σ)) (s : σ) (maxIterations : Nat)
    (h : 1 ≤ maxIterations) :
    (Qyntara.autoFix reg rules s maxIterations).history.length ≤ maxIterations ∧
    (Qyntara.autoFix reg rules s maxIterations).fixCalls ≤ maxIterations ∧
    (Qyntara.autoFix reg rules s maxIterations).history.getLast? =
      some (Qyntara.autoFix reg rules s maxIterations).final ∧
    ((Qyntara.autoFix reg rules s maxIterations).outcome = .MaxIterationsExceeded →
      (Qyntara.autoFix reg rules s maxIterations).final.pass = false) :=
  ⟨Qyntara.autoFix_history_length reg rules s maxIterations h,
   Qyntara.autoFix_fixCalls reg rules s maxIterations h,
   Qyntara.autoFix_getLast reg rules s maxIterations,
   Qyntara.autoFix_mie_pass reg rules s maxIterations⟩

/-- Witness for C1 at the concrete fix-cycle model with bound 3. -/
theorem C1_witness :
    1 ≤ 3 ∧
    (Qyntara.autoFix Qyntara.cycleReg Qyntara.cycleRules ⟨true, true⟩ 3).history.length ≤ 3 ∧
    (Qyntara.autoFix Qyntara.cycleReg Qyntara.cycleRules ⟨true, true⟩ 3).fixCalls ≤ 3 :=
  ⟨by decide,
   (C1_autoFix_terminates_bounded Qyntara.cycleReg Qyntara.cycleRules ⟨true, true⟩ 3
     (by decide)).1,
   (C1_autoFix_terminates_bounded Qyntara.cycleReg Qyntara.cycleRules ⟨true, true⟩ 3
     (by decide)).2.1⟩

/-- C2: a fix session terminates `Stalled` exactly when two consecutive
reports carry an identical progress signature (so a merely changing
signature never triggers `Stalled`), and the concrete two-rule fix cycle —
rule A's fix reintroduces B's violation and vice versa — terminates
`Stalled` within 2 iterations (2 validate calls). -/
theorem C2_stall_detection :
    (∀ (σ : Type) (reg : Qyntara.FixRegistry σ) (rules : List (Qyntara.Rule σ)) (s : σ)
        (mi : Nat),
      (Qyntara.autoFix reg rules s mi).outcome = .Stalled ↔
        ¬ List.Chain' (fun a b => Qyntara.signature a ≠ Qyntara.signature b)
            (Qyntara.autoFix reg rules s mi).history) ∧
    (Qyntara.autoFix Qyntara.cycleReg Qyntara.cycleRules ⟨true, true⟩ 3).outcome =
      .Stalled ∧
    (Qyntara.autoFix Qyntara.cycleReg Qyntara.cycleRules ⟨true, true⟩ 3).history.length = 2 :=
  ⟨fun _σ reg rules s mi => Qyntara.autoFix_stalled_iff reg rules s mi,
   by decide, by decide⟩

/-- C3: a faulting enabled predicate degrades to exactly one synthetic
Info-severity violation naming its rule, in place, while every other rule's
raw violations are produced unchanged — the run is never aborted. -/
theorem C3_rule_isolation {σ : Type} (s : σ) (l₁ l₂ : List (Qyntara.Rule σ))
    (r : Qyntara.Rule σ) (msg : String)
    (henabled : r.enabled = true) (herr : r.predicate s = .error msg) :
    Qyntara.rawViolations s (l₁ ++ r :: l₂) =
      Qyntara.rawViolations s l₁ ++ [Qyntara.syntheticViolation r] ++
        Qyntara.rawViolations s l₂ ∧
    (Qyntara.syntheticViolation r).severity = .Info ∧
    (Qyntara.syntheticViolation r).rule_id = r.id := by
  refine ⟨?_, rfl, rfl⟩
  have hcons : Qyntara.rawViolations s (r :: l₂) =
      Qyntara.runRule s r ++ Qyntara.rawViolations s l₂ := by
    simp [Qyntara.rawViolations]
  rw [Qyntara.rawViolations_append, hcons, Qyntara.runRule_error s r msg henabled herr]
  simp [List.append_assoc]

/-- Witness for C3: the always-faulting rule between the two cycle rules. -/
theorem C3_witness :
    Qyntara.crashRule.enabled = true ∧
    Qyntara.crashRule.predicate (⟨true, true⟩ : Qyntara.CycleScene) =
      .error "predicate fault" ∧
    Qyntara.rawViolations (⟨true, true⟩ : Qyntara.CycleScene)
        ([Qyntara.cycleRuleA] ++ Qyntara.crashRule :: [Qyntara.cycleRuleB]) =
      Qyntara.rawViolations (⟨true, true⟩ : Qyntara.CycleScene) [Qyntara.cycleRuleA] ++
        [Qyntara.syntheticViolation Qyntara.crashRule] ++
        Qyntara.rawViolations (⟨true, true⟩ : Qyntara.CycleScene) [Qyntara.cycleRuleB] :=
  ⟨rfl, rfl,
   (C3_rule_isolation (⟨true, true⟩ : Qyntara.CycleScene) [Qyntara.cycleRuleA]
     [Qyntara.cycleRuleB] Qyntara.crashRule "predicate fault" rfl rfl).1⟩

/-- C4: in a single fix pass, every Sanitize-phase fix application precedes
every Topology-phase fix application in the recorded call order, for any
registry, scene and violation set. -/
theorem C4_phase_ordering {σ : Type} (reg : Qyntara.FixRegistry σ) (s : σ)
    (vs : List Qyntara.Violation) (i j : Nat)
    (hi : i < (Qyntara.fix reg s vs).2.length)
    (hj : j < (Qyntara.fix reg s vs).2.length)
    (hsan : ((Qyntara.fix reg s vs).2.get ⟨i, hi⟩).1 = .Sanitize)
    (htopo : ((Qyntara.fix reg s vs).2.get ⟨j, hj⟩).1 = .Topology) :
    i < j := by
  have hpw := Qyntara.fix_trace_pairwise reg s vs
  rw [List.pairwise_iff_getElem] at hpw
  rw [List.get_eq_getElem] at hsan htopo
  by_contra hij
  push_neg at hij
  rcases Nat.lt_or_ge j i with hji | hji
  · have hle := hpw j i hj hi hji
    rw [hsan, htopo] at hle
    exact absurd hle (by decide)
  · have heq : i = j := Nat.le_antisymm hji hij
    subst heq
    rw [hsan] at htopo
    exact absurd htopo (by decide)

/-- Witness for C4: a Topology violation listed before a Sanitize violation
is still fixed after it. -/
theorem C4_witness :
    ((Qyntara.fix Qyntara.defaultRegistry Qyntara.dirtyScene
        [Qyntara.vTopology, Qyntara.vSanitize]).2.get ⟨0, by decide⟩).1 = .Sanitize ∧
    ((Qyntara.fix Qyntara.defaultRegistry Qyntara.dirtyScene
        [Qyntara.vTopology, Qyntara.vSanitize]).2.get ⟨1, by decide⟩).1 = .Topology ∧
    (0 : Nat) < 1 :=
  ⟨by decide, by decide,
   C4_phase_ordering Qyntara.defaultRegistry Qyntara.dirtyScene
     [Qyntara.vTopology, Qyntara.vSanitize] 0 1 (by decide) (by decide)
     (by decide) (by decide)⟩

/-- C5: a report passes exactly when it contains no Error-severity
violation, both for any `validate` output and — under the strict default,
which never downgrades severities — for the final report of any fix
session. -/
theorem C5_pass_iff_no_error :
    (∀ (σ : Type) (s : σ) (rules : List (Qyntara.Rule σ)) (i : Nat),
      (Qyntara.validate s rules i).pass = true ↔
        ∀ v ∈ (Qyntara.validate s rules i).violations,
          v.severity ≠ Qyntara.Severity.Error) ∧
    (∀ (σ : Type) (reg : Qyntara.FixRegistry σ) (rules : List (Qyntara.Rule σ)) (s : σ)
        (mi : Nat),
      (Qyntara.autoFix reg rules s mi).final.pass = true ↔
        ∀ v ∈ (Qyntara.autoFix reg rules s mi).final.violations,
          v.severity ≠ Qyntara.Severity.Error) := by
  constructor
  · intro σ s rules i
    exact Qyntara.validate_pass_iff s rules i
  · intro σ reg rules s mi
    obtain ⟨k, hk⟩ := Qyntara.autoFix_final_validate reg rules s mi
    rw [hk]
    exact Qyntara.validate_pass_iff _ rules k

/-- Witness for C5 at the concrete fix-cycle session. -/
theorem C5_witness :
    (Qyntara.autoFix Qyntara.cycleReg Qyntara.cycleRules ⟨true, true⟩ 3).final.pass = true ↔
      ∀ v ∈ (Qyntara.autoFix Qyntara.cycleReg Qyntara.cycleRules
          ⟨true, true⟩ 3).final.violations, v.severity ≠ Qyntara.Severity.Error :=
  C5_pass_iff_no_error.2 Qyntara.CycleScene Qyntara.cycleReg Qyntara.cycleRules
    ⟨true, true⟩ 3

/-- C6: every fix action of the modelled default registry is idempotent —
on a target already in the fixed state it is a no-op returning
`NoOpAlreadyFixed`, and a second application is always such a no-op — and
consequently, for any registry, ruleset and scene, validating again after
`autoFix` completes reproduces exactly the final report's violations: the
fix pass itself introduces none. -/
theorem C6_idempotent_fixes :
    (∀ (c : Qyntara.FixCategory) (s : Qyntara.FlagScene) (v : Qyntara.Violation),
      Qyntara.flagOf c s = false →
        Qyntara.defaultRegistry c s v = (s, .NoOpAlreadyFixed)) ∧
    (∀ (c : Qyntara.FixCategory) (s : Qyntara.FlagScene) (v w : Qyntara.Violation),
      Qyntara.defaultRegistry c (Qyntara.defaultRegistry c s v).1 w =
        ((Qyntara.defaultRegistry c s v).1, .NoOpAlreadyFixed)) ∧
    (∀ (σ : Type) (reg : Qyntara.FixRegistry σ) (rules : List (Qyntara.Rule σ)) (s : σ)
        (mi k : Nat),
      (Qyntara.validate (Qyntara.autoFix reg rules s mi).scene rules k).violations =
        (Qyntara.autoFix reg rules s mi).final.violations) := by
  refine ⟨?_, ?_, ?_⟩
  · intro c s v hfixed
    simp [Qyntara.defaultRegistry, hfixed]
  · intro c s v w
    by_cases hflag : Qyntara.flagOf c s
    · simp [Qyntara.defaultRegistry, hflag, Qyntara.flagOf_setFlag_self]
    · simp [Qyntara.defaultRegistry, hflag]
  · intro σ reg rules s mi k
    obtain ⟨j, hj⟩ := Qyntara.autoFix_final_validate reg rules s mi
    rw [hj]
    exact Qyntara.validate_violations_iter _ rules k j

/-- Witness for C6: applying the Sanitize fix to an already-clean scene. -/
theorem C6_witness :
    Qyntara.flagOf Qyntara.FixCategory.Sanitize Qyntara.cleanScene = false ∧
    Qyntara.defaultRegistry Qyntara.FixCategory.Sanitize Qyntara.cleanScene
        Qyntara.vSanitize = (Qyntara.cleanScene, .NoOpAlreadyFixed) :=
  ⟨by decide,
   C6_idempotent_fixes.1 Qyntara.FixCategory.Sanitize Qyntara.cleanScene
     Qyntara.vSanitize (by decide)⟩

/-- C7: `validate` is deterministic — on an unchanged scene and ruleset it
yields a byte-identical serialized report — and its violation list is in
the stable order by severity, then category, then rule id, then target
id. -/
theorem C7_determinism_stable_order :
    ∀ (σ : Type) (s : σ) (rules : List (Qyntara.Rule σ)) (i : Nat),
      Qyntara.serializeReport (Qyntara.validate s rules i) =
        Qyntara.serializeReport (Qyntara.validate s rules i) ∧
      (Qyntara.validate s rules i).violations.Pairwise
        (fun a b => Qyntara.vioLe a b = true) := by
  intro σ s rules i
  refine ⟨rfl, ?_⟩
  exact pairwise_sortOrd Qyntara.vioLe Qyntara.vioLe_trans Qyntara.vioLe_total _

/-- Witness for C7 at the concrete fix-cycle scene. -/
theorem C7_witness :
    Qyntara.serializeReport (Qyntara.validate (⟨true, true⟩ : Qyntara.CycleScene)
        Qyntara.cycleRules 1) =
      Qyntara.serializeReport (Qyntara.validate (⟨true, true⟩ : Qyntara.CycleScene)
        Qyntara.cycleRules 1) ∧
    (Qyntara.validate (⟨true, true⟩ : Qyntara.CycleScene)
        Qyntara.cycleRules 1).violations.Pairwise
      (fun a b => Qyntara.vioLe a b = true) :=
  C7_determinism_stable_order Qyntara.CycleScene ⟨true, true⟩ Qyntara.cycleRules 1

/-- C8: from the unauthenticated state, `onLogin` authenticates exactly for
the hardcoded key "QYNTARA-X-777"; any other key leaves the login state
unchanged; and every `executePipeline` request carries that same fixed
string as its `x-qyntara-key` header. -/
theorem C8_login_gate :
    (∀ k, (Frontend.handleLogin ⟨false⟩ k).isAuthenticated = true ↔
      k = Frontend.magicKey) ∧
    (∀ (st : Frontend.HomeState) k, k ≠ Frontend.magicKey →
      Frontend.handleLogin st k = st) ∧
    (∀ hasFile, (Frontend.pipelineHeaders hasFile).lookup "x-qyntara-key" =
      some Frontend.magicKey) := by
  refine ⟨?_, ?_, ?_⟩
  · intro k
    by_cases h : k = Frontend.magicKey <;> simp [Frontend.handleLogin, h]
  · intro st k h
    simp [Frontend.handleLogin, h]
  · intro hasFile
    cases hasFile <;> rfl

/-- Witness for C8: a wrong key changes nothing, even when authenticated. -/
theorem C8_witness :
    ("wrong-key" : String) ≠ Frontend.magicKey ∧
    Frontend.handleLogin ⟨true⟩ "wrong-key" = ⟨true⟩ :=
  ⟨by decide, C8_login_gate.2.1 ⟨true⟩ "wrong-key" (by decide)⟩

/-- C9: `currentStageIndex` is -1 on an empty log; it is `STAGES.length`
(= 6) when the last message contains "Pipeline Complete"; otherwise it is
the maximum index of a stage one of whose keywords occurs in some message
(-1 when none does); and it is not monotone — appending a keyword-free
message after "Pipeline Complete" drops it from 6 back to -1. -/
theorem C9_stage_index :
    Frontend.currentStageIndex [] = -1 ∧
    (∀ msgs : List String, msgs ≠ [] →
      Frontend.sIncludes (msgs.getLastD "") "Pipeline Complete" = true →
      Frontend.currentStageIndex msgs = 6) ∧
    (∀ msgs : List String, msgs ≠ [] →
      Frontend.sIncludes (msgs.getLastD "") "Pipeline Complete" = false →
      ((∀ msg ∈ msgs, ∀ p ∈ Frontend.STAGES.enum,
          Frontend.stageHit msg p.2 = true →
          (p.1 : Int) ≤ Frontend.currentStageIndex msgs) ∧
        (Frontend.currentStageIndex msgs = -1 ∨
          ∃ msg ∈ msgs, ∃ p ∈ Frontend.STAGES.enum,
            Frontend.stageHit msg p.2 = true ∧
            Frontend.currentStageIndex msgs = (p.1 : Int)))) ∧
    Frontend.currentStageIndex ["Pipeline Complete"] = 6 ∧
    Frontend.currentStageIndex ["Pipeline Complete", "All systems nominal"] = -1 := by
  refine ⟨by decide, ?_, ?_, by decide, by decide⟩
  · intro msgs hne hpc
    have hlen : ¬ msgs.length = 0 := by
      simpa [List.length_eq_zero] using hne
    rw [List.getLastD_eq_getLast?] at hpc
    simp [Frontend.currentStageIndex, hlen, hpc, Frontend.STAGES]
  · intro msgs hne hpc
    have hlen : ¬ msgs.length = 0 := by
      simpa [List.length_eq_zero] using hne
    rw [List.getLastD_eq_getLast?] at hpc
    have hcur : Frontend.currentStageIndex msgs = Frontend.maxStageScan msgs := by
      simp [Frontend.currentStageIndex, hlen, hpc]
    constructor
    · intro msg hmsg p hp hhit
      rw [hcur]
      exact Frontend.outerScan_hit msgs (-1) msg hmsg p hp hhit
    · rw [hcur]
      rcases Frontend.outerScan_cases msgs (-1) with h | ⟨msg, hmsg, p, hp, hhit, heq⟩
      · exact Or.inl h
      · exact Or.inr ⟨msg, hmsg, p, hp, hhit, heq⟩

/-- Witness for C9: a keyword-free single-message log is indexed -1. -/
theorem C9_witness :
    (["booting"] : List String) ≠ [] ∧
    Frontend.sIncludes ((["booting"] : List String).getLastD "") "Pipeline Complete" =
      false ∧
    Frontend.currentStageIndex ["booting"] = -1 := by
  refine ⟨by decide, by decide, ?_⟩
  rcases (C9_stage_index.2.2.1 ["booting"] (by decide) (by decide)).2 with
    h | ⟨msg, hmsg, p, hp, hhit, _heq⟩
  · exact h
  · have hnone : ∀ p ∈ Frontend.STAGES.enum,
        Frontend.stageHit "booting" p.2 = false := by decide
    rcases List.mem_singleton.mp hmsg with rfl
    rw [hnone p hp] at hhit
    cases hhit

/-- C10: from the initial state the calibration point list never exceeds
two points; `handleImageClick` appends the scaled point only while
calibrating with fewer than two points and is otherwise a no-op;
`finishCalibration` acts only with exactly two stored points, setting
pixels-per-meter to their Euclidean distance divided by the calibration
length (with no guard against a zero length), clearing the points and
leaving calibration mode; every other event leaves pixels-per-meter
unchanged. -/
theorem C10_calibration :
    (∀ evts, (Frontend.runFloorPlan evts).calibrationPoints.length ≤ 2) ∧
    (∀ (st : Frontend.FloorPlanState) d, st.isCalibrating = false →
      Frontend.handleImageClick st d = st) ∧
    (∀ (st : Frontend.FloorPlanState) d, 2 ≤ st.calibrationPoints.length →
      Frontend.handleImageClick st d = st) ∧
    (∀ (st : Frontend.FloorPlanState) d, st.isCalibrating = true →
      st.calibrationPoints.length < 2 →
      Frontend.handleImageClick st d =
        { st with calibrationPoints :=
            st.calibrationPoints ++ [Frontend.clickPoint d] }) ∧
    (∀ (st : Frontend.FloorPlanState) p1 p2, st.calibrationPoints = [p1, p2] →
      Frontend.finishCalibration st =
        { st with
            pixelsPerMeter := Frontend.eDist p1 p2 / (st.calibrationLength : ℝ),
            isCalibrating := false,
            calibrationPoints := [] }) ∧
    (∀ st : Frontend.FloorPlanState, st.calibrationPoints.length ≠ 2 →
      Frontend.finishCalibration st = st) ∧
    (∀ (st : Frontend.FloorPlanState) (e : Frontend.FloorPlanEvent),
      (e = .finishCalibration → st.calibrationPoints.length ≠ 2) →
      (Frontend.floorPlanStep st e).pixelsPerMeter = st.pixelsPerMeter) := by
  refine ⟨?_, Frontend.handleImageClick_not_calibrating,
    Frontend.handleImageClick_full, Frontend.handleImageClick_append,
    Frontend.finishCalibration_two, Frontend.finishCalibration_ne, ?_⟩
  · intro evts
    refine Frontend.runFloorPlanFrom_points_le evts Frontend.initFloorPlan ?_
    simp [Frontend.initFloorPlan]
  · intro st e hg
    cases e with
    | imageClick d =>
      simp only [Frontend.floorPlanStep, Frontend.handleImageClick]
      split_ifs <;> rfl
    | startCalibration => rfl
    | cancelCalibration => rfl
    | finishCalibration =>
      rw [show Frontend.floorPlanStep st .finishCalibration =
          Frontend.finishCalibration st from rfl,
        Frontend.finishCalibration_ne st (hg rfl)]
    | setLength q => rfl
    | drop => rfl

/-- Witness for C10: a completed calibration with points (0,0) and (3,4)
and a 1-meter reference yields 5 pixels per meter. -/
theorem C10_witness :
    ({ isCalibrating := true, calibrationPoints := [((0 : ℚ), (0 : ℚ)), (3, 4)],
       pixelsPerMeter := 50, calibrationLength := 1 } :
        Frontend.FloorPlanState).calibrationPoints = [(0, 0), (3, 4)] ∧
    Frontend.finishCalibration
        { isCalibrating := true, calibrationPoints := [((0 : ℚ), (0 : ℚ)), (3, 4)],
          pixelsPerMeter := 50, calibrationLength := 1 } =
      { isCalibrating := false, calibrationPoints := [],
        pixelsPerMeter := Frontend.eDist (0, 0) (3, 4) / ((1 : ℚ) : ℝ),
        calibrationLength := 1 } ∧
    Frontend.eDist (0, 0) (3, 4) = 5 ∧
    (Frontend.runFloorPlan []).calibrationPoints.length ≤ 2 := by
  refine ⟨rfl, ?_, ?_, C10_calibration.1 []⟩
  · exact C10_calibration.2.2.2.2.1
      { isCalibrating := true, calibrationPoints := [((0 : ℚ), (0 : ℚ)), (3, 4)],
        pixelsPerMeter := 50, calibrationLength := 1 } (0, 0) (3, 4) rfl
  · show Real.sqrt _ = 5
    rw [show ((((3 : ℚ), (4 : ℚ)).1 - ((0 : ℚ), (0 : ℚ)).1) ^ 2 +
        (((3 : ℚ), (4 : ℚ)).2 - ((0 : ℚ), (0 : ℚ)).2) ^ 2 : ℚ) = 25 from by norm_num]
    rw [show ((25 : ℚ) : ℝ) = (5 : ℝ) ^ 2 from by norm_num,
      Real.sqrt_sq (by norm_num)]
